import Mathlib

/-!
# cxlmemsim microbenchmarks: `ld_simple_cxl.c` and `simple_client.c`

A shallow embedding of the two socket clients under `src/microbench/`.

* `uint64_t` values are natural numbers; every 64-bit addition that the
  source performs is reduced modulo `2 ^ 64` explicitly.
* `uint8_t` values are `Fin 256`; the 64-byte payload arrays are functions
  `Fin 64 → Fin 256`.
* The peer is an oracle `Nat → Outcome` that fixes, for the k-th
  request/response exchange of the process, whether `send` fails, `recv`
  fails, or which response record `recv` delivers.
* Each program returns its exit code and the chronological list of the
  system calls and result lines it produced.  Wall-clock readings
  (`clock_gettime`) and the banner texts are not part of the embedding.
-/

namespace CxlMemSim

/-! ## Constants (`ld_simple_cxl.c`, lines 26-29) -/

def CACHE_LINE_SIZE : Nat := 64

def STRIDE : Nat := 7

def ARRAY_SIZE : Nat := 1024 * 1024

def ITERATIONS : Nat := 1000

/-- Number of values of a `uint64_t`. -/
def U64 : Nat := 2 ^ 64

/-! ## Wire records (lines 12-24 of both files) -/

abbrev Byte := Fin 256

abbrev Payload := Fin 64 → Byte

structure ServerRequest where
  op_type : Nat
  addr : Nat
  size : Nat
  timestamp : Nat
  data : Payload

structure ServerResponse where
  status : Nat
  latency_ns : Nat
  data : Payload

/-- The value of `struct ServerRequest req = {0};`. -/
def zeroRequest : ServerRequest :=
  { op_type := 0, addr := 0, size := 0, timestamp := 0, data := fun _ => 0 }

/-- The assignment `d[i] = v` on a 64-byte array (indices the loops use are
always below 64). -/
def setByte (d : Payload) (i : Nat) (v : Byte) : Payload :=
  if h : i < 64 then Function.update d ⟨i, h⟩ v else d

/-- The read `d[i]` on a 64-byte array. -/
def getByte (d : Payload) (i : Nat) : Byte :=
  if h : i < 64 then d ⟨i, h⟩ else 0

/-- Conversion of an `int` to `uint8_t`. -/
def toByte (n : Nat) : Byte := ⟨n % 256, Nat.mod_lt n (by decide)⟩

/-! ## Transport -/

/-- What happens to one request/response exchange. -/
inductive Outcome where
  | sendFail
  | recvFail
  | ok (resp : ServerResponse)

/-- The result lines of `ld_simple_cxl.c` (lines 115-119).  The average
latency line prints `(double)total_latency / completed_iterations`; the two
operands of that division are recorded as they are passed to it.  The
elapsed-time and operations-per-second lines depend on the clock and are
left out. -/
structure Report where
  completed_iterations : Nat
  avg_dividend : Nat
  avg_divisor : Nat

inductive Event where
  | send (req : ServerRequest) (sent : Bool)
  | recv (resp : Option ServerResponse)
  | result (status : Nat) (latency_ns : Nat)
  | dump (bytes : List Byte)
  | report (r : Report)
  | close

/-- The test `send(sock, &req, sizeof(req), 0) != sizeof(req)` is false. -/
def sendReq (env : Nat → Outcome) (k : Nat) : Bool :=
  match env k with
  | .sendFail => false
  | _ => true

/-- The record delivered by `recv(sock, &resp, sizeof(resp), MSG_WAITALL)`
when it returns `sizeof(resp)`, and `none` otherwise. -/
def recvResp (env : Nat → Outcome) (k : Nat) : Option ServerResponse :=
  match env k with
  | .ok r => some r
  | _ => none

structure RunResult where
  exitCode : Nat
  trace : List Event

/-! ## `ld_simple_cxl.c` -/

/-- The inner loop of lines 66-68: `for (i = 0; i < CACHE_LINE_SIZE; i++)
req.data[i] = STRIDE;`. -/
def fillStride (d : Payload) : Payload :=
  (List.range CACHE_LINE_SIZE).foldl (fun d i => setByte d i (toByte STRIDE)) d

structure InitResult where
  completed : Bool
  req : ServerRequest
  exchanges : Nat
  trace : List Event

/-- The memory initializer loop of lines 60-79, entered with loop variable
`addr` and `k` exchanges already made.  `completed = false` stands for the
`return 1` inside the loop. -/
def initLoop (env : Nat → Outcome) (addr : Nat) (req : ServerRequest) (k : Nat) :
    InitResult :=
  if addr < ARRAY_SIZE then
    let req : ServerRequest :=
      { op_type := 1, addr := addr, size := CACHE_LINE_SIZE, timestamp := 0,
        data := fillStride req.data }
    if sendReq env k then
      match recvResp env k with
      | some r =>
        let rest := initLoop env ((addr + CACHE_LINE_SIZE) % U64) req (k + 1)
        { rest with trace := .send req true :: .recv (some r) :: rest.trace }
      | none =>
        { completed := false, req := req, exchanges := k + 1,
          trace := [.send req true, .recv none] }
    else
      { completed := false, req := req, exchanges := k + 1,
        trace := [.send req false] }
  else
    { completed := true, req := req, exchanges := k, trace := [] }
termination_by ARRAY_SIZE - addr
decreasing_by
  simp only [ARRAY_SIZE, CACHE_LINE_SIZE, U64] at *
  omega

/-- Lines 107-108: `position += (resp.data[0] * CACHE_LINE_SIZE);
position &= (ARRAY_SIZE - 1);`.  The product is an `int` of at most
`255 * 64`; the addition is a `uint64_t` addition. -/
def nextPosition (position : Nat) (b : Byte) : Nat :=
  ((position + b.val * CACHE_LINE_SIZE) % U64) &&& (ARRAY_SIZE - 1)

structure ChaseResult where
  position : Nat
  total_latency : Nat
  completed_iterations : Nat
  trace : List Event

/-- The measurement loop of lines 90-110, entered with loop variable `i`
and `k` exchanges already made. -/
def chaseLoop (env : Nat → Outcome) (i : Nat) (req : ServerRequest)
    (position total_latency completed_iterations : Nat) (k : Nat) : ChaseResult :=
  if i < ITERATIONS then
    let req : ServerRequest :=
      { req with op_type := 0, addr := position, size := CACHE_LINE_SIZE, timestamp := 0 }
    if sendReq env k then
      match recvResp env k with
      | some resp =>
        let total_latency := (total_latency + resp.latency_ns) % U64
        let position := nextPosition position (getByte resp.data 0)
        let completed_iterations := completed_iterations + 1
        let rest := chaseLoop env (i + 1) req position total_latency completed_iterations (k + 1)
        { rest with trace := .send req true :: .recv (some resp) :: rest.trace }
      | none =>
        { position := position, total_latency := total_latency,
          completed_iterations := completed_iterations,
          trace := [.send req true, .recv none] }
    else
      { position := position, total_latency := total_latency,
        completed_iterations := completed_iterations,
        trace := [.send req false] }
  else
    { position := position, total_latency := total_latency,
      completed_iterations := completed_iterations, trace := [] }
termination_by ITERATIONS - i

/-- Lines 85-110: the three counters are set to zero and the measurement
loop runs from `i = 0`. -/
def pointerChase (env : Nat → Outcome) (req : ServerRequest) (k : Nat) : ChaseResult :=
  chaseLoop env 0 req 0 0 0 k

/-- Lines 55-79: `req` is zero-initialized and the initializer loop runs
from `addr = 0` as the first exchanges of the process. -/
def memoryInitializer (env : Nat → Outcome) : InitResult :=
  initLoop env 0 zeroRequest 0

/-- The body of `main` of `ld_simple_cxl.c` from line 55 on, that is, once
`connect` has succeeded. -/
def ldMain (env : Nat → Outcome) : RunResult :=
  let ini := memoryInitializer env
  if ini.completed then
    let ch := pointerChase env ini.req ini.exchanges
    { exitCode := 0,
      trace := ini.trace ++ ch.trace ++
        [.report { completed_iterations := ch.completed_iterations,
                   avg_dividend := ch.total_latency,
                   avg_divisor := ch.completed_iterations },
         .close] }
  else
    { exitCode := 1, trace := ini.trace }

/-! ## `simple_client.c` -/

/-- Lines 55-57: `for (i = 0; i < 64; i++) req.data[i] = i;`. -/
def fillAscending (d : Payload) : Payload :=
  (List.range 64).foldl (fun d i => setByte d i (toByte i)) d

/-- Lines 90-92: the first 16 bytes of the response payload, in the order
they are printed. -/
def first16 (d : Payload) : List Byte :=
  (List.range 16).map (fun i => getByte d i)

/-- The body of `main` of `simple_client.c` from line 46 on, that is, once
`connect` has succeeded. -/
def simpleMain (env : Nat → Outcome) : RunResult :=
  let req : ServerRequest :=
    { op_type := 1, addr := 0x1000, size := 64, timestamp := 0,
      data := fillAscending zeroRequest.data }
  if sendReq env 0 then
    match recvResp env 0 with
    | some resp =>
      let req2 : ServerRequest := { req with op_type := 0 }
      if sendReq env 1 then
        match recvResp env 1 with
        | some resp2 =>
          { exitCode := 0,
            trace := [.send req true, .recv (some resp),
                      .result resp.status resp.latency_ns,
                      .send req2 true, .recv (some resp2),
                      .result resp2.status resp2.latency_ns,
                      .dump (first16 resp2.data), .close] }
        | none =>
          { exitCode := 1,
            trace := [.send req true, .recv (some resp),
                      .result resp.status resp.latency_ns,
                      .send req2 true, .recv none] }
      else
        { exitCode := 1,
          trace := [.send req true, .recv (some resp),
                    .result resp.status resp.latency_ns,
                    .send req2 false] }
    | none =>
      { exitCode := 1, trace := [.send req true, .recv none] }
  else
    { exitCode := 1, trace := [.send req false] }

/-! ## Observations on traces -/

/-- The request records handed to `send`, in order. -/
def sentRequests : List Event → List ServerRequest
  | [] => []
  | .send req _ :: es => req :: sentRequests es
  | _ :: es => sentRequests es

/-- The number of `close(sock)` calls. -/
def closeCount : List Event → Nat
  | [] => 0
  | .close :: es => closeCount es + 1
  | _ :: es => closeCount es

/-! ## Auxiliary descriptions used in the proofs -/

/-- The record built by lines 61-68 for loop variable `addr`. -/
def initReq (addr : Nat) : ServerRequest :=
  { op_type := 1, addr := addr, size := 64, timestamp := 0, data := fun _ => 7 }

/-- The record built by lines 91-94 at `position`; the payload is whatever
`req` held before. -/
def readReq (req : ServerRequest) (position : Nat) : ServerRequest :=
  { op_type := 0, addr := position, size := 64, timestamp := 0, data := req.data }

/-- Lines 106-109 applied to the responses `rs` from left to right, starting
from the counters `(position, total_latency, completed_iterations)`. -/
def chaseState (position total_latency completed_iterations : Nat) :
    List ServerResponse → Nat × Nat × Nat
  | [] => (position, total_latency, completed_iterations)
  | r :: rs =>
    chaseState (nextPosition position (getByte r.data 0))
      ((total_latency + r.latency_ns) % U64) (completed_iterations + 1) rs

/-- The events of consecutive successful READ exchanges answered by `rs`. -/
def chaseEvents (req : ServerRequest) (position : Nat) : List ServerResponse → List Event
  | [] => []
  | r :: rs =>
    .send (readReq req position) true :: .recv (some r) ::
      chaseEvents req (nextPosition position (getByte r.data 0)) rs

/-! ## Concrete peers -/

/-- A response record whose payload bytes all equal `STRIDE`. -/
def strideResponse (latency : Nat) : ServerResponse :=
  { status := 0, latency_ns := latency, data := fun _ => 7 }

/-- A peer that answers every exchange; the k-th answer reports latency `k`. -/
def cooperativePeer : Nat → Outcome :=
  fun k => .ok (strideResponse k)

/-- A peer that answers the first `n` exchanges and then lets `send` fail. -/
def peerClosingAfter (n : Nat) : Nat → Outcome :=
  fun k => if k < n then .ok (strideResponse k) else .sendFail

/-- A peer that stores the last WRITE payload and returns it on READ, as
driven by `simple_client.c`: exchange 0 is the WRITE of the ascending
pattern, exchange 1 the READ of the same address. -/
def echoPeer : Nat → Outcome :=
  fun _ => .ok { status := 0, latency_ns := 100, data := fun i => toByte i.val }

/-! ## Arithmetic of the position update -/

theorem nextPosition_eq_mod (position : Nat) (b : Byte) :
    nextPosition position b = (position + b.val * 64) % 1048576 := by
  have h : ARRAY_SIZE - 1 = 2 ^ 20 - 1 := by decide
  unfold nextPosition
  rw [h, Nat.and_pow_two_sub_one_eq_mod]
  simp only [U64, CACHE_LINE_SIZE]
  exact Nat.mod_mod_of_dvd _ (by norm_num)

/-! ## The payload fill loops -/

theorem foldl_setByte (v : Nat → Byte) (n : Nat) (d : Payload) (i : Fin 64) :
    (List.range n).foldl (fun d j => setByte d j (v j)) d i
      = if i.val < n then v i.val else d i := by
  induction n with
  | zero => simp
  | succ n ih =>
    rw [List.range_succ, List.foldl_append]
    simp only [List.foldl_cons, List.foldl_nil]
    generalize List.foldl (fun d j => setByte d j (v j)) d (List.range n) = d' at ih ⊢
    have hlt := i.isLt
    unfold setByte
    split
    · rename_i hn
      by_cases hi : i = ⟨n, hn⟩
      · subst hi; simp
      · have hne : i.val ≠ n := fun h => hi (Fin.ext h)
        rw [Function.update_noteq hi, ih]
        have h1 : (i.val < n + 1) = (i.val < n) := by
          apply propext; omega
        simp only [h1]
    · rw [ih]
      have h1 : (i.val < n + 1) = (i.val < n) := by
        apply propext; omega
      simp only [h1]

theorem fillStride_eq (d : Payload) : fillStride d = fun _ => 7 := by
  funext i
  unfold fillStride
  rw [foldl_setByte (fun _ => toByte STRIDE)]
  simp [CACHE_LINE_SIZE, toByte, STRIDE]

theorem fillAscending_eq (d : Payload) : fillAscending d = fun i => toByte i.val := by
  funext i
  unfold fillAscending
  rw [foldl_setByte (fun j => toByte j)]
  simp

/-! ## Observations distribute over concatenation -/

theorem sentRequests_append (xs ys : List Event) :
    sentRequests (xs ++ ys) = sentRequests xs ++ sentRequests ys := by
  induction xs with
  | nil => rfl
  | cons e es ih => cases e <;> simp [sentRequests, ih]

/-! ## One iteration of the memory initializer -/

theorem initLoop_done (env : Nat → Outcome) (addr : Nat) (req : ServerRequest) (k : Nat)
    (h : ¬ addr < ARRAY_SIZE) :
    initLoop env addr req k = { completed := true, req := req, exchanges := k, trace := [] } := by
  rw [initLoop, if_neg h]

theorem initLoop_sendFail (env : Nat → Outcome) (addr : Nat) (req : ServerRequest) (k : Nat)
    (h : addr < ARRAY_SIZE) (he : env k = .sendFail) :
    initLoop env addr req k =
      { completed := false, req := initReq addr, exchanges := k + 1,
        trace := [.send (initReq addr) false] } := by
  rw [initLoop, if_pos h]
  simp [sendReq, he, initReq, fillStride_eq, CACHE_LINE_SIZE]

theorem initLoop_recvFail (env : Nat → Outcome) (addr : Nat) (req : ServerRequest) (k : Nat)
    (h : addr < ARRAY_SIZE) (he : env k = .recvFail) :
    initLoop env addr req k =
      { completed := false, req := initReq addr, exchanges := k + 1,
        trace := [.send (initReq addr) true, .recv none] } := by
  rw [initLoop, if_pos h]
  simp [sendReq, recvResp, he, initReq, fillStride_eq, CACHE_LINE_SIZE]

theorem initLoop_ok (env : Nat → Outcome) (addr : Nat) (req : ServerRequest) (k : Nat)
    (r : ServerResponse) (h : addr < ARRAY_SIZE) (he : env k = .ok r) :
    initLoop env addr req k =
      { initLoop env (addr + 64) (initReq addr) (k + 1) with
        trace := .send (initReq addr) true :: .recv (some r) ::
          (initLoop env (addr + 64) (initReq addr) (k + 1)).trace } := by
  rw [initLoop, if_pos h]
  have hmod : (addr + 64) % U64 = addr + 64 := by
    simp only [ARRAY_SIZE, U64] at *
    omega
  simp [sendReq, recvResp, he, initReq, fillStride_eq, CACHE_LINE_SIZE, hmod]

/-! ## One iteration of the measurement loop -/

theorem chaseLoop_data (env : Nat → Outcome)
    (i : Nat) (req req2 : ServerRequest) (position total_latency completed_iterations k : Nat)
    (hd : req.data = req2.data) :
    chaseLoop env i req position total_latency completed_iterations k =
      chaseLoop env i req2 position total_latency completed_iterations k := by
  rw [chaseLoop, chaseLoop.eq_def env i req2]
  simp only [hd]

theorem chaseLoop_done (env : Nat → Outcome) (i : Nat) (req : ServerRequest)
    (p t c k : Nat) (h : ¬ i < ITERATIONS) :
    chaseLoop env i req p t c k =
      { position := p, total_latency := t, completed_iterations := c, trace := [] } := by
  rw [chaseLoop, if_neg h]

theorem chaseLoop_sendFail (env : Nat → Outcome) (i : Nat) (req : ServerRequest)
    (p t c k : Nat) (h : i < ITERATIONS) (he : env k = .sendFail) :
    chaseLoop env i req p t c k =
      { position := p, total_latency := t, completed_iterations := c,
        trace := [.send (readReq req p) false] } := by
  rw [chaseLoop, if_pos h]
  simp [sendReq, he, readReq, CACHE_LINE_SIZE]

theorem chaseLoop_recvFail (env : Nat → Outcome) (i : Nat) (req : ServerRequest)
    (p t c k : Nat) (h : i < ITERATIONS) (he : env k = .recvFail) :
    chaseLoop env i req p t c k =
      { position := p, total_latency := t, completed_iterations := c,
        trace := [.send (readReq req p) true, .recv none] } := by
  rw [chaseLoop, if_pos h]
  simp [sendReq, recvResp, he, readReq, CACHE_LINE_SIZE]

theorem chaseLoop_ok (env : Nat → Outcome) (i : Nat) (req : ServerRequest)
    (p t c k : Nat) (r : ServerResponse) (h : i < ITERATIONS) (he : env k = .ok r) :
    chaseLoop env i req p t c k =
      { chaseLoop env (i + 1) req (nextPosition p (getByte r.data 0))
          ((t + r.latency_ns) % U64) (c + 1) (k + 1) with
        trace := .send (readReq req p) true :: .recv (some r) ::
          (chaseLoop env (i + 1) req (nextPosition p (getByte r.data 0))
            ((t + r.latency_ns) % U64) (c + 1) (k + 1)).trace } := by
  rw [chaseLoop, if_pos h]
  have hd := chaseLoop_data env (i + 1) (readReq req p) req (nextPosition p (getByte r.data 0))
    ((t + r.latency_ns) % U64) (c + 1) (k + 1) rfl
  simp only [readReq] at hd
  simp [sendReq, recvResp, he, readReq, CACHE_LINE_SIZE, hd]

/-! ## Runs of the memory initializer -/

theorem initLoop_sent (env : Nat → Outcome) (n : Nat) :
    ∀ (addr : Nat) (req : ServerRequest) (k : Nat), ARRAY_SIZE - addr ≤ n → addr % 64 = 0 →
      ∀ q ∈ sentRequests (initLoop env addr req k).trace,
        q.op_type = 1 ∧ q.addr < ARRAY_SIZE ∧ q.addr % 64 = 0 := by
  induction n with
  | zero =>
    intro addr req k hn _ q hq
    have h : ¬ addr < ARRAY_SIZE := by omega
    simp [initLoop_done env addr req k h, sentRequests] at hq
  | succ n ih =>
    intro addr req k hn ha q hq
    by_cases h : addr < ARRAY_SIZE
    · cases he : env k with
      | sendFail =>
        simp [initLoop_sendFail env addr req k h he, sentRequests] at hq
        subst hq
        exact ⟨rfl, h, ha⟩
      | recvFail =>
        simp [initLoop_recvFail env addr req k h he, sentRequests] at hq
        subst hq
        exact ⟨rfl, h, ha⟩
      | ok r =>
        rw [initLoop_ok env addr req k r h he] at hq
        simp only [sentRequests, List.mem_cons] at hq
        rcases hq with hq | hq
        · subst hq
          exact ⟨rfl, h, ha⟩
        · exact ih (addr + 64) (initReq addr) (k + 1) (by omega) (by omega) q hq
    · simp [initLoop_done env addr req k h, sentRequests] at hq

theorem initLoop_run (env : Nat → Outcome) (resps : Nat → ServerResponse)
    (hok : ∀ n, n < 16384 → env n = .ok (resps n)) (m : Nat) :
    ∀ (j : Nat) (req : ServerRequest), j + m = 16384 →
      (initLoop env (64 * j) req j).completed = true ∧
      (initLoop env (64 * j) req j).exchanges = 16384 ∧
      (initLoop env (64 * j) req j).trace =
        (List.range' j m).flatMap
          (fun i => [Event.send (initReq (64 * i)) true, Event.recv (some (resps i))]) := by
  induction m with
  | zero =>
    intro j req hj
    have h : ¬ 64 * j < ARRAY_SIZE := by
      simp only [ARRAY_SIZE]
      omega
    rw [initLoop_done env _ req j h]
    simp
    omega
  | succ m ih =>
    intro j req hj
    have h : 64 * j < ARRAY_SIZE := by
      simp only [ARRAY_SIZE]
      omega
    rw [initLoop_ok env _ req j (resps j) h (hok j (by omega))]
    have e : 64 * j + 64 = 64 * (j + 1) := by omega
    rw [e]
    obtain ⟨h1, h2, h3⟩ := ih (j + 1) (initReq (64 * j)) (by omega)
    refine ⟨h1, h2, ?_⟩
    simp only [h3, List.range'_succ, List.flatMap_cons, List.cons_append, List.nil_append]

/-! ## Runs of the measurement loop -/

theorem chaseLoop_sent (env : Nat → Outcome) (P : Nat → Prop)
    (hstep : ∀ p b, P p → P (nextPosition p b)) (n : Nat) :
    ∀ (i : Nat) (req : ServerRequest) (p t c k : Nat), ITERATIONS - i = n → P p →
      (∀ q ∈ sentRequests (chaseLoop env i req p t c k).trace, q.op_type = 0 ∧ P q.addr) ∧
      P (chaseLoop env i req p t c k).position := by
  induction n with
  | zero =>
    intro i req p t c k hn hp
    have h : ¬ i < ITERATIONS := by omega
    simp [chaseLoop_done env i req p t c k h, sentRequests, hp]
  | succ n ih =>
    intro i req p t c k hn hp
    have h : i < ITERATIONS := by omega
    cases he : env k with
    | sendFail =>
      simp [chaseLoop_sendFail env i req p t c k h he, sentRequests, hp, readReq]
    | recvFail =>
      simp [chaseLoop_recvFail env i req p t c k h he, sentRequests, hp, readReq]
    | ok r =>
      rw [chaseLoop_ok env i req p t c k r h he]
      obtain ⟨h1, h2⟩ := ih (i + 1) req (nextPosition p (getByte r.data 0))
        ((t + r.latency_ns) % U64) (c + 1) (k + 1) (by omega) (hstep _ _ hp)
      refine ⟨?_, h2⟩
      intro q hq
      simp only [sentRequests, List.mem_cons] at hq
      rcases hq with hq | hq
      · subst hq
        exact ⟨rfl, hp⟩
      · exact h1 q hq

theorem chaseLoop_run (env : Nat → Outcome) (rs : List ServerResponse) :
    ∀ (i : Nat) (req : ServerRequest) (p t c k : Nat), i + rs.length ≤ ITERATIONS →
      (∀ n r, rs[n]? = some r → env (k + n) = .ok r) →
      chaseLoop env i req p t c k =
        { chaseLoop env (i + rs.length) req (chaseState p t c rs).1 (chaseState p t c rs).2.1
            (chaseState p t c rs).2.2 (k + rs.length) with
          trace := chaseEvents req p rs ++
            (chaseLoop env (i + rs.length) req (chaseState p t c rs).1 (chaseState p t c rs).2.1
              (chaseState p t c rs).2.2 (k + rs.length)).trace } := by
  induction rs with
  | nil =>
    intro i req p t c k _ _
    simp [chaseState, chaseEvents]
  | cons r rs ih =>
    intro i req p t c k hlen hok
    have h : i < ITERATIONS := by
      simp only [List.length_cons] at hlen
      omega
    have he : env k = .ok r := by
      have := hok 0 r (by simp)
      simpa using this
    rw [chaseLoop_ok env i req p t c k r h he]
    have hok2 : ∀ n r2, rs[n]? = some r2 → env (k + 1 + n) = .ok r2 := by
      intro n r2 hn
      have := hok (n + 1) r2 (by simpa using hn)
      rw [← this]
      congr 1
      omega
    rw [ih (i + 1) req _ _ _ (k + 1) (by simp only [List.length_cons] at hlen; omega) hok2]
    have e1 : i + 1 + rs.length = i + (r :: rs).length := by simp only [List.length_cons]; omega
    have e2 : k + 1 + rs.length = k + (r :: rs).length := by simp only [List.length_cons]; omega
    simp only [e1, e2, chaseState, chaseEvents, List.cons_append]

theorem chaseState_completed (rs : List ServerResponse) :
    ∀ p t c : Nat, (chaseState p t c rs).2.2 = c + rs.length := by
  induction rs with
  | nil => intro p t c; simp [chaseState]
  | cons r rs ih =>
    intro p t c
    simp only [chaseState, ih, List.length_cons]
    omega

theorem chaseState_latency (rs : List ServerResponse) :
    ∀ p t c : Nat, t < U64 →
      (chaseState p t c rs).2.1 = (t + (rs.map (fun r => r.latency_ns)).sum) % U64 := by
  induction rs with
  | nil =>
    intro p t c ht
    simp [chaseState, Nat.mod_eq_of_lt ht]
  | cons r rs ih =>
    intro p t c _
    have hpos : 0 < U64 := by decide
    simp only [chaseState, List.map_cons, List.sum_cons]
    rw [ih _ _ _ (Nat.mod_lt _ hpos), Nat.mod_add_mod, Nat.add_assoc]

theorem chaseState_position (rs : List ServerResponse) :
    ∀ p t c : Nat,
      (chaseState p t c rs).1 = rs.foldl (fun q r => nextPosition q (getByte r.data 0)) p := by
  induction rs with
  | nil => intro p t c; simp [chaseState]
  | cons r rs ih =>
    intro p t c
    simp only [chaseState, ih, List.foldl_cons]

theorem sentRequests_chaseEvents_length (req : ServerRequest) (rs : List ServerResponse) :
    ∀ p : Nat, (sentRequests (chaseEvents req p rs)).length = rs.length := by
  induction rs with
  | nil => intro p; simp [chaseEvents, sentRequests]
  | cons r rs ih =>
    intro p
    simp [chaseEvents, sentRequests, ih]

/-! ## Runs over an initialized address space -/

theorem chaseState_stride (rs : List ServerResponse)
    (h7 : ∀ r ∈ rs, getByte r.data 0 = 7) :
    ∀ (j t c : Nat),
      (chaseState (448 * j % 1048576) t c rs).1 = 448 * (j + rs.length) % 1048576 := by
  induction rs with
  | nil => intro j t c; simp [chaseState]
  | cons r rs ih =>
    intro j t c
    have hr : getByte r.data 0 = 7 := h7 r (by simp)
    have hn : nextPosition (448 * j % 1048576) 7 = 448 * (j + 1) % 1048576 := by
      have h7v : ((7 : Byte) : Nat) = 7 := rfl
      rw [nextPosition_eq_mod, h7v]
      omega
    simp only [chaseState, hr, hn, List.length_cons]
    rw [ih (fun r2 h2 => h7 r2 (by simp [h2]))]
    congr 2
    omega

theorem chaseEvents_stride (req : ServerRequest) (rs : List ServerResponse)
    (h7 : ∀ r ∈ rs, getByte r.data 0 = 7) :
    ∀ j : Nat,
      (sentRequests (chaseEvents req (448 * j % 1048576) rs)).map (fun q => q.addr) =
        (List.range' j rs.length).map (fun n => 448 * n % 1048576) := by
  induction rs with
  | nil => intro j; simp [chaseEvents, sentRequests]
  | cons r rs ih =>
    intro j
    have hr : getByte r.data 0 = 7 := h7 r (by simp)
    have hn : nextPosition (448 * j % 1048576) 7 = 448 * (j + 1) % 1048576 := by
      have h7v : ((7 : Byte) : Nat) = 7 := rfl
      rw [nextPosition_eq_mod, h7v]
      omega
    simp only [chaseEvents, sentRequests, hr, hn, List.map_cons, List.length_cons,
      List.range'_succ, readReq]
    rw [ih (fun r2 h2 => h7 r2 (by simp [h2]))]

/-! ## Further helper lemmas -/

theorem getByte_zero (d : Payload) : getByte d 0 = d 0 := by
  simp [getByte]

theorem getElem?_map_range (resps : Nat → ServerResponse) (N n : Nat) (r : ServerResponse)
    (h : ((List.range N).map resps)[n]? = some r) : n < N ∧ r = resps n := by
  rw [List.getElem?_map] at h
  by_cases hn : n < N
  · rw [List.getElem?_range hn] at h
    simp only [Option.map_some', Option.some.injEq] at h
    exact ⟨hn, h.symm⟩
  · rw [List.getElem?_eq_none (by simpa using hn)] at h
    simp at h

theorem sentRequests_exchanges (f : Nat → ServerRequest) (g : Nat → Option ServerResponse)
    (l : List Nat) :
    sentRequests (l.flatMap (fun i => [Event.send (f i) true, Event.recv (g i)])) = l.map f := by
  induction l with
  | nil => rfl
  | cons a l ih =>
    rw [List.flatMap_cons]
    show sentRequests (Event.send (f a) true :: Event.recv (g a) :: l.flatMap _) = _
    simp only [sentRequests, ih, List.map_cons]

theorem iterate_stride (n : Nat) :
    Nat.iterate (fun p => nextPosition p 7) n 0 = 448 * n % 1048576 := by
  induction n with
  | zero => rfl
  | succ n ih =>
    have h7v : ((7 : Byte) : Nat) = 7 := rfl
    rw [Function.iterate_succ_apply', ih, nextPosition_eq_mod, h7v]
    omega

theorem pointerChase_run (env : Nat → Outcome) (req : ServerRequest) (k : Nat)
    (resps : Nat → ServerResponse) (N : Nat) (hN : N ≤ ITERATIONS)
    (hok : ∀ n, n < N → env (k + n) = .ok (resps n)) :
    pointerChase env req k =
      { chaseLoop env N req (chaseState 0 0 0 ((List.range N).map resps)).1
          (chaseState 0 0 0 ((List.range N).map resps)).2.1
          (chaseState 0 0 0 ((List.range N).map resps)).2.2 (k + N) with
        trace := chaseEvents req 0 ((List.range N).map resps) ++
          (chaseLoop env N req (chaseState 0 0 0 ((List.range N).map resps)).1
            (chaseState 0 0 0 ((List.range N).map resps)).2.1
            (chaseState 0 0 0 ((List.range N).map resps)).2.2 (k + N)).trace } := by
  have h := chaseLoop_run env ((List.range N).map resps) 0 req 0 0 0 k
    (by simpa using hN)
    (fun n r hn => by
      obtain ⟨h1, h2⟩ := getElem?_map_range resps N n r hn
      rw [h2]
      exact hok n h1)
  simp only [List.length_map, List.length_range, Nat.zero_add] at h
  exact h

/-! ## The whole program -/

theorem ldMain_completed (env : Nat → Outcome) (h : (memoryInitializer env).completed = true) :
    ldMain env =
      { exitCode := 0,
        trace := (memoryInitializer env).trace ++
          (pointerChase env (memoryInitializer env).req (memoryInitializer env).exchanges).trace ++
          [.report
            { completed_iterations :=
                (pointerChase env (memoryInitializer env).req
                  (memoryInitializer env).exchanges).completed_iterations,
              avg_dividend :=
                (pointerChase env (memoryInitializer env).req
                  (memoryInitializer env).exchanges).total_latency,
              avg_divisor :=
                (pointerChase env (memoryInitializer env).req
                  (memoryInitializer env).exchanges).completed_iterations },
           .close] } := by
  unfold ldMain
  simp only [h, if_true]

theorem ldMain_aborted (env : Nat → Outcome) (h : (memoryInitializer env).completed = false) :
    ldMain env = { exitCode := 1, trace := (memoryInitializer env).trace } := by
  unfold ldMain
  simp [h]

theorem memoryInitializer_run (env : Nat → Outcome) (resps : Nat → ServerResponse)
    (hok : ∀ n, n < 16384 → env n = .ok (resps n)) :
    (memoryInitializer env).completed = true ∧
    (memoryInitializer env).exchanges = 16384 ∧
    (memoryInitializer env).trace =
      (List.range 16384).flatMap
        (fun i => [Event.send (initReq (64 * i)) true, Event.recv (some (resps i))]) := by
  have h := initLoop_run env resps hok 16384 0 zeroRequest (Nat.zero_add _)
  rw [Nat.mul_zero, ← List.range_eq_range'] at h
  exact h

theorem peerClosingAfter_ok (N n : Nat) (h : n < N) :
    peerClosingAfter N n = .ok (strideResponse n) := by
  simp [peerClosingAfter, h]

theorem peerClosingAfter_fail (N n : Nat) (h : ¬ n < N) :
    peerClosingAfter N n = .sendFail := by
  simp [peerClosingAfter, h]

/-! ## The claims -/

/-- C1: the position update of the pointer-chase loop lands in
`[0, ARRAY_SIZE)` for every current position and every response byte,
255 included; hence every request the pointer-chase loop sends, whatever the
peer answers, is a READ with `addr < ARRAY_SIZE`, and so is every address
sent by the whole program. -/
theorem position_in_range :
    (∀ (position : Nat) (b : Byte), nextPosition position b < ARRAY_SIZE) ∧
    (∀ (env : Nat → Outcome) (req : ServerRequest) (k : Nat),
      ∀ q ∈ sentRequests (pointerChase env req k).trace,
        q.op_type = 0 ∧ q.addr < ARRAY_SIZE) ∧
    (∀ (env : Nat → Outcome), ∀ q ∈ sentRequests (ldMain env).trace, q.addr < ARRAY_SIZE) := by
  have hstep : ∀ (position : Nat) (b : Byte), nextPosition position b < ARRAY_SIZE := by
    intro position b
    rw [nextPosition_eq_mod]
    exact Nat.mod_lt _ (by decide)
  have hchase : ∀ (env : Nat → Outcome) (req : ServerRequest) (k : Nat),
      ∀ q ∈ sentRequests (pointerChase env req k).trace,
        q.op_type = 0 ∧ q.addr < ARRAY_SIZE := by
    intro env req k
    exact (chaseLoop_sent env (fun p => p < ARRAY_SIZE) (fun p b _ => hstep p b)
      ITERATIONS 0 req 0 0 0 k rfl (by decide)).1
  refine ⟨hstep, hchase, ?_⟩
  intro env q hq
  unfold ldMain at hq
  by_cases hc : (memoryInitializer env).completed = true
  · simp only [hc, if_true, sentRequests_append, List.mem_append] at hq
    rcases hq with (hq | hq) | hq
    · exact (initLoop_sent env ARRAY_SIZE 0 zeroRequest 0 (by omega) rfl q hq).2.1
    · exact (hchase env _ _ q hq).2
    · simp [sentRequests] at hq
  · simp only [hc] at hq
    exact (initLoop_sent env ARRAY_SIZE 0 zeroRequest 0 (by omega) rfl q hq).2.1

/-- C2: the position update computed with a 64-bit wrapping addition and
the mask `ARRAY_SIZE - 1` equals `(position + b * CACHE_LINE_SIZE) mod
ARRAY_SIZE` over the natural numbers, for every position (in particular
every position in `[0, ARRAY_SIZE)`) and every byte `b`. -/
theorem position_update_is_modulo (position : Nat) (b : Byte) :
    nextPosition position b = (position + b.val * CACHE_LINE_SIZE) % ARRAY_SIZE := by
  rw [nextPosition_eq_mod]
  rfl

/-- C3: when each of the `ITERATIONS` READ exchanges is answered by a
response whose first payload byte is 7 (all other response fields being
arbitrary), the n-th READ request carries address `448 * n mod 1048576`, the
position after the last step is `448 * ITERATIONS mod 1048576`, and these
values obey `position (n+1) = (position n + 7 * 64) mod ARRAY_SIZE`. -/
theorem stride_sequence (env : Nat → Outcome) (req : ServerRequest) (k : Nat)
    (resps : Nat → ServerResponse)
    (hok : ∀ n, n < ITERATIONS → env (k + n) = .ok (resps n))
    (h7 : ∀ n, n < ITERATIONS → (resps n).data 0 = 7) :
    (sentRequests (pointerChase env req k).trace).map (fun q => q.addr) =
      (List.range ITERATIONS).map (fun n => 448 * n % 1048576) ∧
    (pointerChase env req k).position = 448 * ITERATIONS % 1048576 ∧
    (∀ n : Nat, 448 * (n + 1) % 1048576 =
      (448 * n % 1048576 + STRIDE * CACHE_LINE_SIZE) % ARRAY_SIZE) := by
  have hrun := pointerChase_run env req k resps ITERATIONS (Nat.le_refl _) hok
  have hdone := chaseLoop_done env ITERATIONS req
    (chaseState 0 0 0 ((List.range ITERATIONS).map resps)).1
    (chaseState 0 0 0 ((List.range ITERATIONS).map resps)).2.1
    (chaseState 0 0 0 ((List.range ITERATIONS).map resps)).2.2 (k + ITERATIONS)
    (Nat.lt_irrefl _)
  rw [hdone] at hrun
  have hall : ∀ r ∈ (List.range ITERATIONS).map resps, getByte r.data 0 = 7 := by
    intro r hr
    obtain ⟨n, hn, rfl⟩ := List.mem_map.mp hr
    rw [getByte_zero]
    exact h7 n (List.mem_range.mp hn)
  refine ⟨?_, ?_, ?_⟩
  · have h := chaseEvents_stride req ((List.range ITERATIONS).map resps) hall 0
    simp only [List.length_map, List.length_range, Nat.mul_zero, Nat.zero_mod] at h
    rw [hrun]
    simp only [List.append_nil]
    rw [h, List.range_eq_range']
  · have h := chaseState_stride ((List.range ITERATIONS).map resps) hall 0 0 0
    simp only [List.length_map, List.length_range, Nat.mul_zero, Nat.zero_mod,
      Nat.zero_add] at h
    rw [hrun]
    dsimp only
    exact h
  · intro n
    simp only [STRIDE, CACHE_LINE_SIZE, ARRAY_SIZE]
    omega

/-- Witness of C3 on the cooperative peer. -/
theorem stride_sequence_witness :
    (sentRequests (pointerChase cooperativePeer zeroRequest 16384).trace).map (fun q => q.addr) =
      (List.range ITERATIONS).map (fun n => 448 * n % 1048576) := by
  have hok : ∀ n, n < ITERATIONS →
      cooperativePeer (16384 + n) = .ok (strideResponse (16384 + n)) := fun _ _ => rfl
  have h7 : ∀ n, n < ITERATIONS → (strideResponse (16384 + n)).data 0 = 7 := fun _ _ => rfl
  have h := stride_sequence cooperativePeer zeroRequest 16384
    (fun n => strideResponse (16384 + n)) hok h7
  exact And.left h

/-- C4: if exactly the first `N ≤ ITERATIONS` exchanges of the pointer-chase
loop succeed and, when `N < ITERATIONS`, the send or the receive of the next
exchange fails, the loop ends with `completed_iterations = N`, with
`total_latency` the sum modulo `2 ^ 64` of the latencies of those `N`
responses and with the position reached by those `N` responses alone; it
makes `N + 1` send calls when an exchange failed (the failed one is not
retried) and `N` otherwise.  For `N = ITERATIONS` the count is 1000. -/
theorem truncated_run_counters (env : Nat → Outcome) (req : ServerRequest) (k : Nat)
    (resps : Nat → ServerResponse) (N : Nat) (hN : N ≤ ITERATIONS)
    (hok : ∀ n, n < N → env (k + n) = .ok (resps n))
    (hfail : N < ITERATIONS → env (k + N) = .sendFail ∨ env (k + N) = .recvFail) :
    (pointerChase env req k).completed_iterations = N ∧
    (pointerChase env req k).total_latency =
      ((List.range N).map (fun n => (resps n).latency_ns)).sum % U64 ∧
    (pointerChase env req k).position =
      (List.range N).foldl (fun p n => nextPosition p ((resps n).data 0)) 0 ∧
    (sentRequests (pointerChase env req k).trace).length =
      (if N < ITERATIONS then N + 1 else N) ∧
    (N = ITERATIONS → (pointerChase env req k).completed_iterations = 1000) := by
  have hrun := pointerChase_run env req k resps N hN hok
  have hc := chaseState_completed ((List.range N).map resps) 0 0 0
  have hl := chaseState_latency ((List.range N).map resps) 0 0 0 (by decide)
  have hp := chaseState_position ((List.range N).map resps) 0 0 0
  have hs := sentRequests_chaseEvents_length req ((List.range N).map resps) 0
  simp only [List.length_map, List.length_range, Nat.zero_add, List.map_map] at hc hl hs
  rw [List.foldl_map] at hp
  simp only [getByte_zero] at hp
  have hfields : (pointerChase env req k).completed_iterations = N ∧
      (pointerChase env req k).total_latency =
        ((List.range N).map (fun n => (resps n).latency_ns)).sum % U64 ∧
      (pointerChase env req k).position =
        (List.range N).foldl (fun p n => nextPosition p ((resps n).data 0)) 0 ∧
      (sentRequests (pointerChase env req k).trace).length =
        (if N < ITERATIONS then N + 1 else N) := by
    by_cases hlt : N < ITERATIONS
    · rcases hfail hlt with he | he
      · rw [chaseLoop_sendFail env N req _ _ _ (k + N) hlt he] at hrun
        rw [hrun]
        dsimp only
        refine ⟨hc, hl, hp, ?_⟩
        rw [sentRequests_append, List.length_append, hs, if_pos hlt]
        rfl
      · rw [chaseLoop_recvFail env N req _ _ _ (k + N) hlt he] at hrun
        rw [hrun]
        dsimp only
        refine ⟨hc, hl, hp, ?_⟩
        rw [sentRequests_append, List.length_append, hs, if_pos hlt]
        rfl
    · rw [chaseLoop_done env N req _ _ _ (k + N) hlt] at hrun
      rw [hrun]
      dsimp only
      refine ⟨hc, hl, hp, ?_⟩
      rw [sentRequests_append, List.length_append, hs, if_neg hlt]
      rfl
  obtain ⟨h1, h2, h3, h4⟩ := hfields
  refine ⟨h1, h2, h3, h4, ?_⟩
  intro hN2
  rw [h1, hN2]
  rfl

/-- Witness of C4: the peer answers three READ exchanges and then closes. -/
theorem truncated_run_counters_witness :
    (pointerChase (peerClosingAfter 16387) zeroRequest 16384).completed_iterations = 3 ∧
    (pointerChase (peerClosingAfter 16387) zeroRequest 16384).total_latency =
      ((List.range 3).map (fun n => (strideResponse (16384 + n)).latency_ns)).sum % U64 := by
  have hok : ∀ n, n < 3 →
      peerClosingAfter 16387 (16384 + n) = .ok (strideResponse (16384 + n)) := by
    intro n hn
    have h : 16384 + n < 16387 := by omega
    simp [peerClosingAfter, h]
  have hfail : 3 < ITERATIONS →
      peerClosingAfter 16387 (16384 + 3) = .sendFail ∨
      peerClosingAfter 16387 (16384 + 3) = .recvFail := fun _ => Or.inl rfl
  have h := truncated_run_counters (peerClosingAfter 16387) zeroRequest 16384
    (fun n => strideResponse (16384 + n)) 3 (by decide) hok hfail
  exact ⟨h.1, h.2.1⟩

/-- C5 (evaluation at the failing input): when the initializer succeeds and
the first READ `send` fails, the program still reaches its report with
`completed_iterations = 0`, where the average latency line divides
`total_latency = 0` by `completed_iterations = 0`, closes the socket and
exits with status 0. -/
theorem zero_iterations_report :
    (ldMain (peerClosingAfter 16384)).exitCode = 0 ∧
    ∃ pre, (ldMain (peerClosingAfter 16384)).trace = pre ++
      [Event.report { completed_iterations := 0, avg_dividend := 0, avg_divisor := 0 },
       Event.close] := by
  obtain ⟨h1, h2, -⟩ := memoryInitializer_run (peerClosingAfter 16384) strideResponse
    (fun n hn => peerClosingAfter_ok 16384 n hn)
  have hch : ∀ req, pointerChase (peerClosingAfter 16384) req 16384 =
      { position := 0, total_latency := 0, completed_iterations := 0,
        trace := [.send (readReq req 0) false] } := by
    intro req
    unfold pointerChase
    exact chaseLoop_sendFail (peerClosingAfter 16384) 0 req 0 0 0 16384 (by decide)
      (peerClosingAfter_fail 16384 16384 (Nat.lt_irrefl _))
  rw [ldMain_completed _ h1, h2, hch]
  exact ⟨rfl, _, rfl⟩

/-- C6: with a peer that answers the first 16384 exchanges, the memory
initializer runs to completion after exactly `ARRAY_SIZE / CACHE_LINE_SIZE
= 16384` exchanges; its trace is, for `i = 0, 1, ..., 16383` in this order,
one send of the WRITE record with `addr = 64 * i`, `size = 64`,
`timestamp = 0` and 64 payload bytes equal to 7, followed by one receive;
no address reaches `ARRAY_SIZE`. -/
theorem initializer_requests (env : Nat → Outcome) (resps : Nat → ServerResponse)
    (hok : ∀ n, n < 16384 → env n = .ok (resps n)) :
    (memoryInitializer env).completed = true ∧
    (memoryInitializer env).exchanges = ARRAY_SIZE / CACHE_LINE_SIZE ∧
    (memoryInitializer env).trace =
      (List.range 16384).flatMap
        (fun i =>
          [Event.send
            { op_type := 1, addr := 64 * i, size := 64, timestamp := 0, data := fun _ => 7 }
            true,
           Event.recv (some (resps i))]) ∧
    sentRequests (memoryInitializer env).trace =
      (List.range 16384).map
        (fun i =>
          { op_type := 1, addr := 64 * i, size := 64, timestamp := 0, data := fun _ => 7 }) ∧
    (∀ q ∈ sentRequests (memoryInitializer env).trace, q.addr < ARRAY_SIZE) := by
  obtain ⟨h1, h2, h3⟩ := memoryInitializer_run env resps hok
  refine ⟨h1, h2, h3, ?_, ?_⟩
  · rw [h3]
    exact sentRequests_exchanges (fun i => initReq (64 * i)) (fun i => some (resps i)) _
  · intro q hq
    exact (initLoop_sent env ARRAY_SIZE 0 zeroRequest 0 (by omega) rfl q hq).2.1

/-- Witness of C6 on the cooperative peer. -/
theorem initializer_requests_witness :
    sentRequests (memoryInitializer cooperativePeer).trace =
      (List.range 16384).map
        (fun i =>
          { op_type := 1, addr := 64 * i, size := 64, timestamp := 0, data := fun _ => 7 }) :=
  (initializer_requests cooperativePeer strideResponse (fun _ _ => rfl)).2.2.2.1

/-- C7 (evaluation at the failing input): when the first `send` fails, both
programs return 1 without any `close` call. -/
theorem early_return_skips_close :
    (ldMain (fun _ => Outcome.sendFail)).exitCode = 1 ∧
    closeCount (ldMain (fun _ => Outcome.sendFail)).trace = 0 ∧
    (simpleMain (fun _ => Outcome.sendFail)).exitCode = 1 ∧
    closeCount (simpleMain (fun _ => Outcome.sendFail)).trace = 0 := by
  have hi : memoryInitializer (fun _ => Outcome.sendFail) =
      { completed := false, req := initReq 0, exchanges := 1,
        trace := [.send (initReq 0) false] } := by
    unfold memoryInitializer
    exact initLoop_sendFail _ 0 zeroRequest 0 (by decide) rfl
  have hm := ldMain_aborted (fun _ => Outcome.sendFail) (by rw [hi])
  rw [hi] at hm
  rw [hm]
  refine ⟨rfl, rfl, ?_, ?_⟩
  · simp [simpleMain, sendReq]
  · simp [simpleMain, sendReq, closeCount]

/-- C8: in `simple_client.c`, when both exchanges succeed, the first record
sent is a WRITE with `addr = 0x1000`, `size = 64`, `timestamp = 0` and
`data[i] = i`, and the second is the same record with `op_type = 0`; if the
READ response carries the bytes written, the 16 bytes printed are
`00 01 ... 0f`, after which the socket is closed and the program returns
0. -/
theorem single_exchange (env : Nat → Outcome) (r1 r2 : ServerResponse)
    (h1 : env 0 = .ok r1) (h2 : env 1 = .ok r2)
    (hpeer : ∀ i : Fin 64, (r2.data i).val = i.val) :
    sentRequests (simpleMain env).trace =
      [{ op_type := 1, addr := 0x1000, size := 64, timestamp := 0,
         data := fun i => ⟨i.val, Nat.lt_trans i.isLt (by decide)⟩ },
       { op_type := 0, addr := 0x1000, size := 64, timestamp := 0,
         data := fun i => ⟨i.val, Nat.lt_trans i.isLt (by decide)⟩ }] ∧
    (simpleMain env).trace =
      [.send { op_type := 1, addr := 0x1000, size := 64, timestamp := 0,
               data := fun i => ⟨i.val, Nat.lt_trans i.isLt (by decide)⟩ } true,
       .recv (some r1),
       .result r1.status r1.latency_ns,
       .send { op_type := 0, addr := 0x1000, size := 64, timestamp := 0,
               data := fun i => ⟨i.val, Nat.lt_trans i.isLt (by decide)⟩ } true,
       .recv (some r2),
       .result r2.status r2.latency_ns,
       .dump [0, 1, 2, 3, 4, 5, 6, 7, 8, 9, 10, 11, 12, 13, 14, 15],
       .close] ∧
    (simpleMain env).exitCode = 0 := by
  have hdata : fillAscending zeroRequest.data =
      fun i : Fin 64 => (⟨i.val, Nat.lt_trans i.isLt (by decide)⟩ : Byte) := by
    rw [fillAscending_eq]
    funext i
    apply Fin.ext
    have := i.isLt
    simp only [toByte]
    omega
  have hdump : first16 r2.data = [0, 1, 2, 3, 4, 5, 6, 7, 8, 9, 10, 11, 12, 13, 14, 15] := by
    have hb : ∀ (n : Nat) (hn : n < 64), getByte r2.data n = toByte n := by
      intro n hn
      apply Fin.ext
      have := hpeer ⟨n, hn⟩
      simp only [getByte, hn, dite_true, toByte]
      simp only at this
      omega
    simp only [first16, List.range, List.range.loop, List.map_cons, List.map_nil]
    rw [hb 0 (by decide), hb 1 (by decide), hb 2 (by decide), hb 3 (by decide),
      hb 4 (by decide), hb 5 (by decide), hb 6 (by decide), hb 7 (by decide),
      hb 8 (by decide), hb 9 (by decide), hb 10 (by decide), hb 11 (by decide),
      hb 12 (by decide), hb 13 (by decide), hb 14 (by decide), hb 15 (by decide)]
    rfl
  have htrace : simpleMain env =
      { exitCode := 0,
        trace :=
          [.send { op_type := 1, addr := 0x1000, size := 64, timestamp := 0,
                   data := fun i => ⟨i.val, Nat.lt_trans i.isLt (by decide)⟩ } true,
           .recv (some r1),
           .result r1.status r1.latency_ns,
           .send { op_type := 0, addr := 0x1000, size := 64, timestamp := 0,
                   data := fun i => ⟨i.val, Nat.lt_trans i.isLt (by decide)⟩ } true,
           .recv (some r2),
           .result r2.status r2.latency_ns,
           .dump [0, 1, 2, 3, 4, 5, 6, 7, 8, 9, 10, 11, 12, 13, 14, 15],
           .close] } := by
    unfold simpleMain
    simp only [sendReq, recvResp, h1, h2, hdata, hdump, if_true]
  rw [htrace]
  exact ⟨rfl, rfl, rfl⟩

/-- Witness of C8 on a peer that returns the written pattern. -/
theorem single_exchange_witness :
    (simpleMain echoPeer).exitCode = 0 ∧
    sentRequests (simpleMain echoPeer).trace =
      [{ op_type := 1, addr := 0x1000, size := 64, timestamp := 0,
         data := fun i => ⟨i.val, Nat.lt_trans i.isLt (by decide)⟩ },
       { op_type := 0, addr := 0x1000, size := 64, timestamp := 0,
         data := fun i => ⟨i.val, Nat.lt_trans i.isLt (by decide)⟩ }] := by
  have hpeer : ∀ i : Fin 64,
      ((⟨0, 100, fun i => toByte i.val⟩ : ServerResponse).data i).val = i.val := by
    intro i
    have := i.isLt
    simp only [toByte]
    omega
  have h := single_exchange echoPeer _ _ rfl rfl hpeer
  exact ⟨h.2.2, h.1⟩

/-- C9: whatever the peer answers, every address the pointer-chase loop
sends is a multiple of `CACHE_LINE_SIZE`, and so is the position it ends
with; one step of the position update preserves alignment for every
response byte. -/
theorem addresses_aligned (env : Nat → Outcome) (req : ServerRequest) (k : Nat) :
    (∀ q ∈ sentRequests (pointerChase env req k).trace, q.addr % CACHE_LINE_SIZE = 0) ∧
    (pointerChase env req k).position % CACHE_LINE_SIZE = 0 ∧
    (∀ (p : Nat) (b : Byte), p % CACHE_LINE_SIZE = 0 →
      nextPosition p b % CACHE_LINE_SIZE = 0) := by
  have hstep : ∀ (p : Nat) (b : Byte), p % CACHE_LINE_SIZE = 0 →
      nextPosition p b % CACHE_LINE_SIZE = 0 := by
    intro p b hp
    rw [nextPosition_eq_mod]
    simp only [CACHE_LINE_SIZE] at *
    omega
  have h := chaseLoop_sent env (fun p => p % CACHE_LINE_SIZE = 0) hstep
    ITERATIONS 0 req 0 0 0 k rfl rfl
  exact ⟨fun q hq => (h.1 q hq).2, h.2, hstep⟩

/-- Witness of C9: the step from the last line with the largest byte. -/
theorem addresses_aligned_witness :
    nextPosition 1048512 255 % CACHE_LINE_SIZE = 0 :=
  (addresses_aligned cooperativePeer zeroRequest 0).2.2 1048512 255 (by decide)

/-- C10: when every READ response has first payload byte 7, the addresses
of the `ITERATIONS` READ requests are pairwise distinct; more generally the
first 16384 positions of the stride-7 walk from 0 are pairwise distinct, the
walk is back at 0 after 16384 steps and at no step count between 1 and
16383. -/
theorem no_revisit (env : Nat → Outcome) (req : ServerRequest) (k : Nat)
    (resps : Nat → ServerResponse)
    (hok : ∀ n, n < ITERATIONS → env (k + n) = .ok (resps n))
    (h7 : ∀ n, n < ITERATIONS → (resps n).data 0 = 7) :
    ((sentRequests (pointerChase env req k).trace).map (fun q => q.addr)).Nodup ∧
    (∀ m n : Nat, m < 16384 → n < 16384 →
      Nat.iterate (fun p => nextPosition p 7) m 0 =
        Nat.iterate (fun p => nextPosition p 7) n 0 → m = n) ∧
    Nat.iterate (fun p => nextPosition p 7) 16384 0 = 0 ∧
    (∀ n : Nat, 0 < n → n < 16384 → Nat.iterate (fun p => nextPosition p 7) n 0 ≠ 0) := by
  have hrun := pointerChase_run env req k resps ITERATIONS (Nat.le_refl _) hok
  rw [chaseLoop_done env ITERATIONS req _ _ _ (k + ITERATIONS) (Nat.lt_irrefl _)] at hrun
  have hall : ∀ r ∈ (List.range ITERATIONS).map resps, getByte r.data 0 = 7 := by
    intro r hr
    obtain ⟨n, hn, rfl⟩ := List.mem_map.mp hr
    rw [getByte_zero]
    exact h7 n (List.mem_range.mp hn)
  have haddr := chaseEvents_stride req ((List.range ITERATIONS).map resps) hall 0
  simp only [List.length_map, List.length_range, Nat.mul_zero, Nat.zero_mod] at haddr
  refine ⟨?_, ?_, ?_, ?_⟩
  · rw [hrun]
    simp only [List.append_nil]
    rw [haddr, ← List.range_eq_range']
    refine List.Nodup.map_on ?_ (List.nodup_range _)
    intro x hx y hy hxy
    have hx2 := List.mem_range.mp hx
    have hy2 := List.mem_range.mp hy
    simp only [ITERATIONS] at hx2 hy2
    omega
  · intro m n hm hn h
    rw [iterate_stride, iterate_stride] at h
    omega
  · rw [iterate_stride]
  · intro n h0 hn h
    rw [iterate_stride] at h
    omega

/-- Witness of C10 on the cooperative peer. -/
theorem no_revisit_witness :
    ((sentRequests (pointerChase cooperativePeer zeroRequest 16384).trace).map
      (fun q => q.addr)).Nodup := by
  have hok : ∀ n, n < ITERATIONS →
      cooperativePeer (16384 + n) = .ok (strideResponse (16384 + n)) := fun _ _ => rfl
  have h7 : ∀ n, n < ITERATIONS → (strideResponse (16384 + n)).data 0 = 7 := fun _ _ => rfl
  exact (no_revisit cooperativePeer zeroRequest 16384
    (fun n => strideResponse (16384 + n)) hok h7).1

end CxlMemSim
